import Mathlib

/-!
A verification development for the P2P-LLM-Chat-Go repository.

The Go sources embedded here are `go/cmd/directory/main.go` (the directory
registry service) and `go/cmd/node/main.go` (the node messaging engine).
Pure functions of the Go code are translated into Lean functions; the
in-memory stores become explicit state values threaded through the
translated handlers.  Machine-level details that a claim depends on
(Go slice aliasing, the raw string interpolation used to build JSON
bodies, URL query parsing, base58 peer-id rendering) are modelled
explicitly where a claim is about them.
-/

set_option autoImplicit false

/-- The chat message envelope.  The Go struct lives in the
`p2p-llm-chat/node/proto` package, which is not among the provided files;
its shape is reconstructed from its uses in `go/cmd/node/main.go`
(fields `ID`, `FromUser`, `ToUser`, `Content`, `Timestamp`) and from
spec §3 (ChatMessage: `id`, `fromUser`, `toUser`, `content`,
`timestamp`).  Timestamps are modelled as naturals. -/
structure ChatMessage where
  id : String
  fromUser : String
  toUser : String
  content : String
  timestamp : Nat
deriving DecidableEq, Repr, Inhabited

/-- `record` from `go/cmd/directory/main.go` lines 30-34: the value stored
per username (`PeerID`, `Addrs`, `Last`). -/
structure record where
  peerID : String
  addrs : List String
  last : Nat
deriving DecidableEq, Repr

/-- `memStore` from `go/cmd/directory/main.go` lines 36-39: the
username-keyed map.  A Go map is modelled as a function to `Option`;
the `nil`-map lazy initialisation in `set` is invisible at this level
(an uninitialised map and an empty map read the same). -/
structure memStore where
  data : String → Option record

/-- The empty store (a fresh `memStore{}`). -/
def memStore.empty : memStore := ⟨fun _ => none⟩

/-- `memStore.set` from `go/cmd/directory/main.go` lines 41-48:
`s.data[username] = rec` under the write lock. -/
def memStore.set (s : memStore) (username : String) (rec : record) : memStore :=
  ⟨fun v => if v = username then some rec else s.data v⟩

/-- `memStore.get` from `go/cmd/directory/main.go` lines 50-55:
`rec, ok := s.data[username]` under the read lock. -/
def memStore.get (s : memStore) (username : String) : Option record :=
  s.data username

/-- The decoded body of `POST /register`
(`go/cmd/directory/main.go` lines 63-67). -/
structure RegisterBody where
  username : String
  peerID : String
  addrs : List String
deriving DecidableEq, Repr

/-- The `POST /register` handler, `go/cmd/directory/main.go` lines 62-78.
`body = none` models `c.BindJSON` failing (undecodable request body).
`now` stands for `time.Now()`.  Returns the HTTP status and the store
after the call. -/
def registerHandler (store : memStore) (body : Option RegisterBody) (now : Nat) :
    Nat × memStore :=
  match body with
  | none => (400, store)
  | some b =>
    if b.username = "" ∨ b.peerID = "" then (400, store)
    else (200, store.set b.username ⟨b.peerID, b.addrs, now⟩)

/-- The `GET /lookup` handler, `go/cmd/directory/main.go` lines 80-92.
`u` is the value of `c.Query("username")`.  Returns the HTTP status and,
on 200, the `{peer_id, addrs}` payload. -/
def lookupHandler (store : memStore) (u : String) :
    Nat × Option (String × List String) :=
  if u = "" then (400, none)
  else
    match store.get u with
    | none => (404, none)
    | some rec => (200, some (rec.peerID, rec.addrs))

/-!  ## The node's inbox (value-level model)

`Inbox` from `go/cmd/node/main.go` lines 97-128, with the queue as a plain
list of messages.  The slice/aliasing level of `Drain` is modelled
separately further below for the frame claim.
-/

/-- `Inbox.Push`, `go/cmd/node/main.go` lines 102-106:
`i.queue = append(i.queue, m)`. -/
def Inbox.push (queue : List ChatMessage) (m : ChatMessage) : List ChatMessage :=
  queue ++ [m]

/-- The `for _, m := range i.queue` loop of `Inbox.Drain`,
`go/cmd/node/main.go` lines 116-126: a message equal to the cursor sets
`found` and is skipped (`continue`); any message seen while `found`
is appended to `out`. -/
def Inbox.drainLoop (after : String) : List ChatMessage → Bool → List ChatMessage
  | [], _ => []
  | m :: rest, found =>
    if m.id = after then Inbox.drainLoop after rest true
    else if found then m :: Inbox.drainLoop after rest found
    else Inbox.drainLoop after rest found

/-- `Inbox.Drain`, `go/cmd/node/main.go` lines 108-128: an empty cursor
returns a copy of the whole queue, otherwise the cursor loop runs with
`found = false`. -/
def Inbox.drain (queue : List ChatMessage) (after : String) : List ChatMessage :=
  if after = "" then queue
  else Inbox.drainLoop after queue false

/-- Spec-side definition (spec §4.4): "all messages strictly after the
first occurrence of a message whose `id` equals `afterId`".  Used to
compare `Inbox.drain` against the specified result. -/
def afterFirstMatch (after : String) : List ChatMessage → List ChatMessage
  | [] => []
  | m :: rest => if m.id = after then rest else afterFirstMatch after rest

/-!  ## The chat stream handler -/

/-- The stream handler installed in `main`, `go/cmd/node/main.go`
lines 158-172.  `payload = none` models `io.ReadAll` failing (the handler
logs and returns, leaving the inbox alone); `decode` stands for
`json.Unmarshal` into a `ChatMessage`, with `none` for a decode error
(again the handler logs and returns).  On success the message is pushed.
The handler is a total function: it produces a next inbox state for every
input, which is the "never crashes" part of the behaviour. -/
def handleStream (decode : List Nat → Option ChatMessage)
    (queue : List ChatMessage) (payload : Option (List Nat)) : List ChatMessage :=
  match payload with
  | none => queue
  | some bytes =>
    match decode bytes with
    | none => queue
    | some msg => Inbox.push queue msg

/-- Folding the stream handler over a sequence of inbound streams:
each stream is handled by the same (re-installed once) handler, so a
failing stream is followed by normal processing of the next one. -/
def handleStreams (decode : List Nat → Option ChatMessage)
    (queue : List ChatMessage) (streams : List (Option (List Nat))) : List ChatMessage :=
  streams.foldl (handleStream decode) queue

/-!  ## The node's directory client and `/send` handler

`DirectoryClient.Lookup` (`go/cmd/node/main.go` lines 71-90) builds the
request URL as `BaseURL + "/lookup?username=" + username` with no URL
escaping, so the directory's `c.Query("username")` sees the username
only after the query string has been split and percent-decoded.  That
split/decode step (net/url `ParseQuery`, which gin's `Query` uses) is
modelled below: pairs are separated by `&`, a pair containing `;` or
failing percent-decoding is skipped, `+` decodes to a space, and the
first successfully decoded pair with the wanted key supplies the value.
-/

/-- Hexadecimal digit value, as `net/url.unhex`. -/
def hexVal (c : Char) : Option Nat :=
  if '0' ≤ c ∧ c ≤ '9' then some (c.toNat - '0'.toNat)
  else if 'a' ≤ c ∧ c ≤ 'f' then some (c.toNat - 'a'.toNat + 10)
  else if 'A' ≤ c ∧ c ≤ 'F' then some (c.toNat - 'A'.toNat + 10)
  else none

/-- The base58btc alphabet used by libp2p's `peer.ID.String()`. -/
def base58Alphabet : List Char :=
  "123456789ABCDEFGHJKLMNPQRSTUVWXYZabcdefghijkmnopqrstuvwxyz".data

/-- Big-endian byte sequence to natural number. -/
def bytesBE (bytes : List Nat) : Nat :=
  bytes.foldl (fun acc b => acc * 256 + b) 0

/-- Little-endian base-58 digits of `n`, with an explicit fuel argument
(the value itself suffices, since each step divides by 58). -/
def natToB58 : Nat → Nat → List Nat
  | 0, _ => []
  | _ + 1, 0 => []
  | fuel + 1, n + 1 => ((n + 1) % 58) :: natToB58 fuel ((n + 1) / 58)

/-- Base58btc encoding of a byte sequence: one `1` per leading zero
byte, then the base-58 digits of the big-endian value, most significant
first. -/
def base58Encode (bytes : List Nat) : List Char :=
  let z := (bytes.takeWhile (fun b => b = 0)).length
  let n := bytesBE bytes
  List.replicate z '1' ++ ((natToB58 n n).reverse.map (fun d => base58Alphabet.getD d ' '))

/-- The peer identity string placed in the directory record:
`h.ID().String()`, the base58btc rendering of the multihash bytes
(`go/cmd/node/main.go` line 177). -/
def registeredPeerID (idBytes : List Nat) : String :=
  String.mk (base58Encode idBytes)

/-- The `peer_id` value the `GET /me` handler reports: `string(h.ID())`,
the raw multihash bytes converted to a string unchanged
(`go/cmd/node/main.go` line 275).  Bytes below 128 convert to the
identical code points, which covers the inputs used here. -/
def meHandlerPeerID (idBytes : List Nat) : String :=
  String.mk (idBytes.map Char.ofNat)

/-!  ## The register request body (raw interpolation versus JSON)

`DirectoryClient.Register` (`go/cmd/node/main.go` lines 55-69) builds its
request body with
`fmt.Sprintf(`...`{"username":"%s","peer_id":"%s","addrs":%s}`...`, username, peerID, toJSON(addrs))`:
the username and peer id are spliced between quotes with no escaping,
while the address list goes through `json.Marshal`.  The directory then
decodes the body with `c.BindJSON` (`encoding/json`).  Both sides are
modelled below: the builder verbatim, and a decoder for the JSON
fragment these bodies draw from (objects whose values are string
literals or arrays of string literals; richer nesting never arises from
the builder and is out of the modelled fragment).
-/

/-- The double-quote character. -/
def quoteC : Char := Char.ofNat 34

/-- The backslash character. -/
def backslashC : Char := Char.ofNat 92

/-- The opening curly bracket. -/
def openBraceC : Char := Char.ofNat 123

/-- The closing curly bracket. -/
def closeBraceC : Char := Char.ofNat 125

/-- Lowercase hexadecimal digit, as Go's JSON encoder emits in `\u00xx`
escapes. -/
def hexDigitChar (n : Nat) : Char :=
  if n < 10 then Char.ofNat (48 + n) else Char.ofNat (97 + n - 10)

/-- How Go's `json.Marshal` renders one character inside a string
literal: quote, backslash, newline, carriage return and tab get
two-character escapes, other control characters get `\u00xx`, the
HTML-sensitive characters `<`, `>`, `&` get `\u00xx` (HTML escaping is
on by default), U+2028/U+2029 get `\u202x`, everything else is emitted
unchanged. -/
def goEscapeChar (c : Char) : List Char :=
  if c = quoteC then [backslashC, quoteC]
  else if c = backslashC then [backslashC, backslashC]
  else if c = Char.ofNat 10 then [backslashC, 'n']
  else if c = Char.ofNat 13 then [backslashC, 'r']
  else if c = Char.ofNat 9 then [backslashC, 't']
  else if c.toNat < 32 then
    [backslashC, 'u', '0', '0', hexDigitChar (c.toNat / 16), hexDigitChar (c.toNat % 16)]
  else if c = '<' ∨ c = '>' ∨ c = '&' then
    [backslashC, 'u', '0', '0', hexDigitChar (c.toNat / 16), hexDigitChar (c.toNat % 16)]
  else if c.toNat = 8232 ∨ c.toNat = 8233 then
    [backslashC, 'u', '2', '0', '2', hexDigitChar (c.toNat % 16)]
  else [c]

/-- `json.Marshal` of a Go string: a quoted, escaped string literal. -/
def goEncodeString (s : String) : List Char :=
  quoteC :: (s.data.map goEscapeChar).flatten ++ [quoteC]

/-- Lists joined with a separator between consecutive elements. -/
def joinSep (sep : List Char) : List (List Char) → List Char
  | [] => []
  | [x] => x
  | x :: y :: xs => x ++ sep ++ joinSep sep (y :: xs)

/-- `toJSON(addrs)` (`go/cmd/node/main.go` lines 92-95): `json.Marshal`
of a `[]string`.  The slice the node passes is always non-nil (`addrs :=
[]string{}`), so the `nil`/`null` case does not arise and lists model it
exactly. -/
def goMarshalStringList (xs : List String) : List Char :=
  '[' :: joinSep [','] (xs.map goEncodeString) ++ [']']

/-- `%s` interpolation between two literal quotes, exactly as the
`Sprintf` format string does: no escaping of the spliced value. -/
def rawQuoted (s : String) : List Char :=
  quoteC :: s.data ++ [quoteC]

/-- The body `DirectoryClient.Register` sends, built character for
character from the `Sprintf` format string
(`go/cmd/node/main.go` line 56). -/
def buildRegisterBody (username peerID : String) (addrs : List String) : List Char :=
  [openBraceC] ++ rawQuoted "username" ++ [':'] ++ rawQuoted username ++ [','] ++
    rawQuoted "peer_id" ++ [':'] ++ rawQuoted peerID ++ [','] ++
    rawQuoted "addrs" ++ [':'] ++ goMarshalStringList addrs ++ [closeBraceC]

/-- JSON whitespace. -/
def isJsonWs (c : Char) : Bool :=
  c = ' ' || c = Char.ofNat 9 || c = Char.ofNat 10 || c = Char.ofNat 13

/-- Skip JSON whitespace. -/
def skipWs (cs : List Char) : List Char :=
  cs.dropWhile isJsonWs

/-- The interior of a JSON string literal, after the opening quote:
returns the decoded characters and the input following the closing
quote.  Escapes are decoded as `encoding/json` does; a raw control
character or an unterminated or malformed literal is an error.
(Surrogate-pair recombination in `\u` escapes is not modelled; none of
the inputs reasoned about contains one.) -/
def parseStringBody : List Char → Option (List Char × List Char)
  | [] => none
  | c :: rest =>
    if c = quoteC then some ([], rest)
    else if c = backslashC then
      match rest with
      | [] => none
      | e :: rest2 =>
        if e = quoteC then (parseStringBody rest2).map (fun p => (quoteC :: p.1, p.2))
        else if e = backslashC then (parseStringBody rest2).map (fun p => (backslashC :: p.1, p.2))
        else if e = '/' then (parseStringBody rest2).map (fun p => ('/' :: p.1, p.2))
        else if e = 'b' then (parseStringBody rest2).map (fun p => (Char.ofNat 8 :: p.1, p.2))
        else if e = 'f' then (parseStringBody rest2).map (fun p => (Char.ofNat 12 :: p.1, p.2))
        else if e = 'n' then (parseStringBody rest2).map (fun p => (Char.ofNat 10 :: p.1, p.2))
        else if e = 'r' then (parseStringBody rest2).map (fun p => (Char.ofNat 13 :: p.1, p.2))
        else if e = 't' then (parseStringBody rest2).map (fun p => (Char.ofNat 9 :: p.1, p.2))
        else if e = 'u' then
          match rest2 with
          | h1 :: h2 :: h3 :: h4 :: rest3 =>
            match hexVal h1, hexVal h2, hexVal h3, hexVal h4 with
            | some a, some b, some c2, some d =>
              (parseStringBody rest3).map
                (fun p => (Char.ofNat (4096 * a + 256 * b + 16 * c2 + d) :: p.1, p.2))
            | _, _, _, _ => none
          | _ => none
        else none
    else if c.toNat < 32 then none
    else (parseStringBody rest).map (fun p => (c :: p.1, p.2))

/-- A JSON string literal, opening quote included. -/
def parseStringLit (cs : List Char) : Option (String × List Char) :=
  match cs with
  | [] => none
  | c :: rest =>
    if c = quoteC then (parseStringBody rest).map (fun p => (String.mk p.1, p.2))
    else none

/-- A field value of the modelled JSON fragment: a string or an array of
strings. -/
inductive JField where
  | jstr (s : String)
  | jarr (xs : List String)
deriving DecidableEq, Repr

/-- Elements of a non-empty JSON array of string literals, up to and
including the closing square bracket. -/
def parseElemsLoop : Nat → List Char → Option (List String × List Char)
  | 0, _ => none
  | fuel + 1, cs =>
    match parseStringLit (skipWs cs) with
    | none => none
    | some (s, rest) =>
      match skipWs rest with
      | c :: rest2 =>
        if c = ',' then (parseElemsLoop fuel rest2).map (fun p => (s :: p.1, p.2))
        else if c = ']' then some ([s], rest2)
        else none
      | [] => none

/-- A JSON array of string literals, starting after the opening square
bracket. -/
def parseArray (fuel : Nat) (cs : List Char) : Option (List String × List Char) :=
  match skipWs cs with
  | c :: rest => if c = ']' then some ([], rest) else parseElemsLoop fuel (skipWs cs)
  | [] => none

/-- A member value: string literal or array of string literals. -/
def parseFieldValue (fuel : Nat) (cs : List Char) : Option (JField × List Char) :=
  match skipWs cs with
  | c :: rest =>
    if c = quoteC then (parseStringLit (c :: rest)).map (fun p => (JField.jstr p.1, p.2))
    else if c = '[' then (parseArray fuel rest).map (fun p => (JField.jarr p.1, p.2))
    else none
  | [] => none

/-- The members of a non-empty JSON object, up to and including the
closing curly bracket. -/
def parseMembersLoop : Nat → List Char → Option (List (String × JField) × List Char)
  | 0, _ => none
  | fuel + 1, cs =>
    match parseStringLit (skipWs cs) with
    | none => none
    | some (k, rest) =>
      match skipWs rest with
      | c :: rest2 =>
        if c = ':' then
          match parseFieldValue fuel rest2 with
          | none => none
          | some (v, rest3) =>
            match skipWs rest3 with
            | c2 :: rest4 =>
              if c2 = ',' then (parseMembersLoop fuel rest4).map (fun p => ((k, v) :: p.1, p.2))
              else if c2 = closeBraceC then some ([(k, v)], rest4)
              else none
            | [] => none
        else none
      | [] => none

/-- A JSON object of the modelled fragment. -/
def parseTopObject (fuel : Nat) (cs : List Char) : Option (List (String × JField) × List Char) :=
  match skipWs cs with
  | c :: rest =>
    if c = openBraceC then
      match skipWs rest with
      | c2 :: rest2 => if c2 = closeBraceC then some ([], rest2) else parseMembersLoop fuel (skipWs rest)
      | [] => none
    else none
  | [] => none

/-- Reading a string-typed struct field as `json.Unmarshal` does:
a later duplicate key overwrites an earlier one, a missing key leaves
the zero value `""`, and a value of the wrong type is a decode error. -/
def lastStrField (fields : List (String × JField)) (key : String) : Option String :=
  match fields.reverse.find? (fun f => f.1 == key) with
  | none => some ""
  | some (_, JField.jstr s) => some s
  | some (_, JField.jarr _) => none

/-- What the directory's `c.BindJSON` recovers for the `username` and
`peer_id` fields from a request body, or `none` when decoding fails.
The fuel bounds the member/element loops by the input length; trailing
data after the object is ignored, as `json.Decoder.Decode` ignores it. -/
def decodeRegisterBody (cs : List Char) : Option (String × String) :=
  match parseTopObject (cs.length + 1) cs with
  | none => none
  | some (fields, _rest) =>
    match lastStrField fields "username", lastStrField fields "peer_id" with
    | some u, some p => some (u, p)
    | _, _ => none

/-!  ## The inbox at the slice level (backing arrays and aliasing)

The claim that `Drain` hands back a snapshot that later `Push` calls
cannot mutate is about Go slice aliasing, so `Inbox` is also modelled at
the level of backing buffers: a memory is an allocation counter plus a
map from buffer identifiers to their contents, and a slice is a view
(buffer, offset, length, capacity).  `append` writes in place while
capacity remains and otherwise reallocates into a fresh buffer, as the
Go runtime does; `make` allocates a fresh zeroed buffer; `copy` fills a
prefix of the destination.  The exact growth factor of `append` is
irrelevant to aliasing and is modelled as doubling.
-/

/-- A Go slice header: backing buffer identifier, offset, length,
capacity. -/
structure GoSlice where
  buf : Nat
  off : Nat
  len : Nat
  cap : Nat
deriving DecidableEq, Repr

/-- A heap of message buffers: every identifier below `size` has been
allocated. -/
structure Mem where
  size : Nat
  bufs : Nat → List ChatMessage

/-- Allocate a fresh zeroed buffer of `n` elements. -/
def Mem.alloc (mem : Mem) (n : Nat) : Mem × Nat :=
  (⟨mem.size + 1,
    fun b => if b = mem.size then List.replicate n default else mem.bufs b⟩,
   mem.size)

/-- Replace the contents of one buffer. -/
def Mem.writeBuf (mem : Mem) (b : Nat) (l : List ChatMessage) : Mem :=
  ⟨mem.size, fun b2 => if b2 = b then l else mem.bufs b2⟩

/-- Write one element of one buffer. -/
def Mem.writeAt (mem : Mem) (b i : Nat) (x : ChatMessage) : Mem :=
  mem.writeBuf b ((mem.bufs b).set i x)

/-- The elements a slice views. -/
def sliceToList (mem : Mem) (s : GoSlice) : List ChatMessage :=
  ((mem.bufs s.buf).drop s.off).take s.len

/-- Go's `copy(dst, src)`: the first `min` elements of `dst` are
replaced by those of `src`. -/
def goCopy (dst src : List ChatMessage) : List ChatMessage :=
  src.take (min dst.length src.length) ++ dst.drop (min dst.length src.length)

/-- Go's single-element `append`: write in place below the capacity,
otherwise allocate a larger fresh buffer, copy the old elements over and
write there. -/
def sliceAppend (mem : Mem) (s : GoSlice) (x : ChatMessage) : Mem × GoSlice :=
  if s.len < s.cap then
    (mem.writeAt s.buf (s.off + s.len) x, ⟨s.buf, s.off, s.len + 1, s.cap⟩)
  else
    let newcap := if s.cap = 0 then 1 else 2 * s.cap
    let (mem1, b) := mem.alloc newcap
    let mem2 := mem1.writeBuf b (goCopy (mem1.bufs b) (sliceToList mem s))
    (mem2.writeAt b s.len x, ⟨b, 0, s.len + 1, newcap⟩)

/-- Go's `make([]T, n)`: a fresh zeroed buffer viewed whole. -/
def sliceMake (mem : Mem) (n : Nat) : Mem × GoSlice :=
  let (mem1, b) := mem.alloc n
  (mem1, ⟨b, 0, n, n⟩)

/-- `Inbox.Push` at the slice level: `i.queue = append(i.queue, m)`. -/
def InboxS.push (st : Mem × GoSlice) (m : ChatMessage) : Mem × GoSlice :=
  sliceAppend st.1 st.2 m

/-- A sequence of pushes. -/
def InboxS.pushAll (st : Mem × GoSlice) (ms : List ChatMessage) : Mem × GoSlice :=
  ms.foldl InboxS.push st

/-- The cursor loop of `Inbox.Drain` at the slice level, appending the
kept messages to `out` (`out = append(out, m)`). -/
def InboxS.drainLoop (after : String) :
    List ChatMessage → Bool → Mem → GoSlice → Mem × GoSlice
  | [], _, mem, out => (mem, out)
  | m :: rest, found, mem, out =>
    if m.id = after then InboxS.drainLoop after rest true mem out
    else if found then
      let (mem2, out2) := sliceAppend mem out m
      InboxS.drainLoop after rest found mem2 out2
    else InboxS.drainLoop after rest found mem out

/-- `Inbox.Drain` at the slice level.  An empty cursor makes a
same-length slice and copies the queue into it
(`cp := make(...); copy(cp, i.queue)`); otherwise the loop starts from
the empty slice literal `[]proto.ChatMessage{}`, modelled as a fresh
zero-capacity buffer.  The `range` loop reads the queue's elements,
which no write of the loop touches (the loop writes only buffers fresh
relative to the queue), so reading them up front is equivalent. -/
def InboxS.drain (mem : Mem) (queue : GoSlice) (after : String) : Mem × GoSlice :=
  if after = "" then
    let (mem1, cp) := sliceMake mem queue.len
    (mem1.writeBuf cp.buf (goCopy (mem1.bufs cp.buf) (sliceToList mem queue)), cp)
  else
    let (mem1, ob) := mem.alloc 0
    InboxS.drainLoop after (sliceToList mem queue) false mem1 ⟨ob, 0, 0, 0⟩

/-!  ## Concrete values and side conditions used by the theorems -/

/-- Two messages with the same id, used to refute claim C3 as stated. -/
def dupA1 : ChatMessage := ⟨"a", "u1", "u2", "one", 0⟩

/-- A message between the two duplicates. -/
def dupB : ChatMessage := ⟨"b", "u1", "u2", "two", 1⟩

/-- The second message carrying the duplicated id. -/
def dupA2 : ChatMessage := ⟨"a", "u1", "u2", "three", 2⟩

/-- A character the raw `Sprintf` splice keeps verbatim inside a JSON
string literal and a compliant decoder reads back unchanged: not a
quote, not a backslash, not a control character. -/
abbrev jsonPlainChar (c : Char) : Prop :=
  c ≠ quoteC ∧ c ≠ backslashC ∧ 32 ≤ c.toNat

/-- A character `json.Marshal` emits unchanged inside a string literal:
JSON-plain and none of the HTML-escaped or line-separator characters. -/
abbrev marshalPlainChar (c : Char) : Prop :=
  jsonPlainChar c ∧ c ≠ '<' ∧ c ≠ '>' ∧ c ≠ '&' ∧ c.toNat ≠ 8232 ∧ c.toNat ≠ 8233

/-!  ## Theorems -/

/-- Claim C1: registering a non-empty username with a non-empty peer
identity and then looking the username up, with no intervening
registration of it, answers 200 with exactly the registered peer
identity and address list. -/
theorem C1_register_then_lookup (store : memStore) (U P : String) (A : List String)
    (now : Nat) (hU : U ≠ "") (hP : P ≠ "") :
    (registerHandler store (some ⟨U, P, A⟩) now).1 = 200 ∧
    lookupHandler (registerHandler store (some ⟨U, P, A⟩) now).2 U = (200, some (P, A)) := by
  constructor
  · simp [registerHandler, hU, hP]
  · simp [registerHandler, lookupHandler, hU, hP, memStore.get, memStore.set]

/-- Witness for C1 at a concrete registration. -/
theorem C1_register_then_lookup_witness :
    (registerHandler memStore.empty (some ⟨"alice", "p1", ["a1"]⟩) 7).1 = 200 ∧
    lookupHandler (registerHandler memStore.empty (some ⟨"alice", "p1", ["a1"]⟩) 7).2 "alice"
      = (200, some ("p1", ["a1"])) :=
  C1_register_then_lookup memStore.empty "alice" "p1" ["a1"] 7 (by decide) (by decide)

/-- Claim C2: registering the same username twice leaves exactly the
second record under that username: the store holds the second peer
identity, addresses and timestamp, a lookup answers with exactly the
second registration's data (no merge with the first address list), and
no other username is affected. -/
theorem C2_last_write_wins (store : memStore) (U P1 P2 : String)
    (A1 A2 : List String) (t1 t2 : Nat) (hU : U ≠ "") (hP1 : P1 ≠ "") (hP2 : P2 ≠ "") :
    (registerHandler (registerHandler store (some ⟨U, P1, A1⟩) t1).2
        (some ⟨U, P2, A2⟩) t2).2.get U = some ⟨P2, A2, t2⟩ ∧
    lookupHandler (registerHandler (registerHandler store (some ⟨U, P1, A1⟩) t1).2
        (some ⟨U, P2, A2⟩) t2).2 U = (200, some (P2, A2)) ∧
    ∀ V, V ≠ U → (registerHandler (registerHandler store (some ⟨U, P1, A1⟩) t1).2
        (some ⟨U, P2, A2⟩) t2).2.get V = store.get V := by
  refine ⟨?_, ?_, ?_⟩
  · simp [registerHandler, hU, hP1, hP2, memStore.set, memStore.get]
  · simp [registerHandler, lookupHandler, hU, hP1, hP2, memStore.set, memStore.get]
  · intro V hV
    simp [registerHandler, hU, hP1, hP2, memStore.set, memStore.get, hV]

/-- Witness for C2 at a concrete double registration. -/
theorem C2_last_write_wins_witness :
    (registerHandler (registerHandler memStore.empty (some ⟨"u", "p1", ["a1"]⟩) 1).2
        (some ⟨"u", "p2", ["a2"]⟩) 2).2.get "u" = some ⟨"p2", ["a2"], 2⟩ ∧
    lookupHandler (registerHandler (registerHandler memStore.empty (some ⟨"u", "p1", ["a1"]⟩) 1).2
        (some ⟨"u", "p2", ["a2"]⟩) 2).2 "u" = (200, some ("p2", ["a2"])) ∧
    ∀ V, V ≠ "u" → (registerHandler (registerHandler memStore.empty (some ⟨"u", "p1", ["a1"]⟩) 1).2
        (some ⟨"u", "p2", ["a2"]⟩) 2).2.get V = memStore.empty.get V :=
  C2_last_write_wins memStore.empty "u" "p1" "p2" ["a1"] ["a2"] 1 2
    (by decide) (by decide) (by decide)

/-- The cursor loop with `found` already set keeps every remaining
message whose id differs from the cursor. -/
theorem Inbox.drainLoop_true_eq (after : String) (xs : List ChatMessage) :
    Inbox.drainLoop after xs true = xs.filter (fun m => m.id != after) := by
  induction xs with
  | nil => rfl
  | cons m rest ih =>
    by_cases h : m.id = after
    · simp [Inbox.drainLoop, h, ih]
    · simp [Inbox.drainLoop, h, ih]

/-- The cursor loop from `found = false` yields the messages after the
first cursor match, the later cursor matches excluded. -/
theorem Inbox.drainLoop_false_eq (after : String) (xs : List ChatMessage) :
    Inbox.drainLoop after xs false =
      (afterFirstMatch after xs).filter (fun m => m.id != after) := by
  induction xs with
  | nil => rfl
  | cons m rest ih =>
    by_cases h : m.id = after
    · simp [Inbox.drainLoop, afterFirstMatch, h, Inbox.drainLoop_true_eq]
    · simp [Inbox.drainLoop, afterFirstMatch, h, ih]

/-- Without a match the suffix after the first match is empty. -/
theorem afterFirstMatch_eq_nil (after : String) :
    ∀ xs : List ChatMessage, (∀ m ∈ xs, m.id ≠ after) → afterFirstMatch after xs = []
  | [], _ => rfl
  | m :: rest, h => by
    have hm : m.id ≠ after := h m (by simp)
    simp only [afterFirstMatch, hm, if_false]
    exact afterFirstMatch_eq_nil after rest (fun x hx => h x (by simp [hx]))

/-- Counterexample to claim C3 as stated: with the cursor id occurring
twice in the inbox, `Drain` does not return all messages strictly after
the first occurrence — it also skips the later occurrence. -/
theorem C3_counterexample :
    "a" ≠ "" ∧ (∃ m ∈ [dupA1, dupB, dupA2], m.id = "a") ∧
    Inbox.drain [dupA1, dupB, dupA2] "a" ≠ afterFirstMatch "a" [dupA1, dupB, dupA2] := by
  decide

/-- Claim C3 (amended): `drain("")` returns the whole sequence in
order; for a non-empty cursor, `drain(afterId)` returns the messages
strictly after the first occurrence of a message with that id,
excluding any later messages whose id also equals the cursor (for
sequences with distinct message ids this is exactly the suffix the
claim states); and an unmatched non-empty cursor yields the empty
sequence, not an error. -/
theorem C3_drain_cursor_semantics (xs : List ChatMessage) (after : String) :
    Inbox.drain xs "" = xs ∧
    (after ≠ "" → Inbox.drain xs after =
      (afterFirstMatch after xs).filter (fun m => m.id != after)) ∧
    (after ≠ "" → (∀ m ∈ xs, m.id ≠ after) → Inbox.drain xs after = []) := by
  refine ⟨by simp [Inbox.drain], fun h => ?_, fun h hnone => ?_⟩
  · simp [Inbox.drain, h, Inbox.drainLoop_false_eq]
  · simp [Inbox.drain, h, Inbox.drainLoop_false_eq, afterFirstMatch_eq_nil after xs hnone]

/-- Witness for C3 (amended) on a concrete two-message inbox. -/
theorem C3_drain_cursor_semantics_witness :
    Inbox.drain [dupA1, dupB] "a" = [dupB] ∧ Inbox.drain [dupA1, dupB] "zz" = [] := by
  constructor
  · have h := (C3_drain_cursor_semantics [dupA1, dupB] "a").2.1 (by decide)
    rw [h]; decide
  · have h := (C3_drain_cursor_semantics [dupA1, dupB] "zz").2.2 (by decide) (by decide)
    exact h

/-- Claim C7: a stream whose payload does not deserialize leaves the
inbox unchanged (as does a failed read), a payload that does deserialize
appends exactly that message, and the handler is a total step function,
so after any dropped stream the next stream is processed normally. -/
theorem C7_stream_handler (decode : List Nat → Option ChatMessage)
    (q : List ChatMessage) (bytes : List Nat) (streams : List (Option (List Nat))) :
    (decode bytes = none → handleStream decode q (some bytes) = q) ∧
    handleStream decode q none = q ∧
    (∀ m, decode bytes = some m → handleStream decode q (some bytes) = q ++ [m]) ∧
    handleStreams decode q (some bytes :: streams) =
      handleStreams decode (handleStream decode q (some bytes)) streams := by
  refine ⟨fun h => ?_, rfl, fun m h => ?_, rfl⟩
  · simp [handleStream, h]
  · simp [handleStream, h, Inbox.push]

/-- Witness for C7: an undecodable payload leaves a concrete inbox
unchanged. -/
theorem C7_stream_handler_witness :
    handleStream (fun _ => none) [dupB] (some [0, 1]) = [dupB] :=
  (C7_stream_handler (fun _ => none) [dupB] [0, 1] []).1 rfl

/-- Claim C8: `POST /register` answers 400 exactly when the body is
undecodable or the username or peer id field is empty, and on every 400
the store is unchanged. -/
theorem C8_register_validation (store : memStore) (body : Option RegisterBody) (now : Nat) :
    ((registerHandler store body now).1 = 400 ↔
      body = none ∨ ∃ b, body = some b ∧ (b.username = "" ∨ b.peerID = "")) ∧
    ((registerHandler store body now).1 = 400 → (registerHandler store body now).2 = store) := by
  cases body with
  | none => simp [registerHandler]
  | some b =>
    by_cases h : b.username = "" ∨ b.peerID = ""
    · simp [registerHandler, h]
    · simp [registerHandler, h]

/-- Witness for C8: a rejected registration (empty peer id) leaves a
concrete store unchanged. -/
theorem C8_register_validation_witness :
    (registerHandler memStore.empty (some ⟨"u", "", []⟩) 3).2 = memStore.empty :=
  (C8_register_validation memStore.empty (some ⟨"u", "", []⟩) 3).2 rfl

/-- Claim C5: the code disagrees with it.  On the multihash byte
sequence `[0x01, 0x02]` the registered peer identity
(`h.ID().String()`, base58btc) is the two-character string `"5T"`,
while `GET /me` reports the raw bytes `"\x01\x02"` (the Go conversion
`string(h.ID())`).  The two renderings differ, so the `/me` handler
does not report the identity that was registered. -/
theorem C5_me_mismatch :
    registeredPeerID [1, 2] = "5T" ∧
    meHandlerPeerID [1, 2] = String.mk [Char.ofNat 1, Char.ofNat 2] ∧
    meHandlerPeerID [1, 2] ≠ registeredPeerID [1, 2] := by
  decide

/-- Skipping whitespace leaves a list starting with a non-whitespace
character alone. -/
theorem skipWs_cons_of (c : Char) (l : List Char) (h : isJsonWs c = false) :
    skipWs (c :: l) = c :: l := by
  simp [skipWs, List.dropWhile_cons, h]

/-- A string is its character list repackaged. -/
theorem stringMk_data (s : String) : String.mk s.data = s := rfl

/-- A JSON-plain character passes through the string-literal parser. -/
theorem parseStringBody_cons_plain (c : Char) (rest : List Char) (h : jsonPlainChar c) :
    parseStringBody (c :: rest) = (parseStringBody rest).map (fun p => (c :: p.1, p.2)) := by
  obtain ⟨h1, h2, h3⟩ := h
  have hlt : ¬ (c.toNat < 32) := by omega
  rcases rest with _ | ⟨e, _ | ⟨f1, _ | ⟨f2, _ | ⟨f3, _ | ⟨f4, rest3⟩⟩⟩⟩⟩ <;>
    simp [parseStringBody, h1, h2, hlt]

/-- The string-literal parser recovers a JSON-plain interior verbatim up
to the closing quote. -/
theorem parseStringBody_plain :
    ∀ s : List Char, (∀ c ∈ s, jsonPlainChar c) → ∀ rest : List Char,
      parseStringBody (s ++ quoteC :: rest) = some (s, rest)
  | [], _, rest => by
    rcases rest with _ | ⟨e, _ | ⟨f1, _ | ⟨f2, _ | ⟨f3, _ | ⟨f4, rest3⟩⟩⟩⟩⟩ <;>
      simp [parseStringBody]
  | c :: s, h, rest => by
    rw [List.cons_append, parseStringBody_cons_plain c _ (h c (by simp)),
      parseStringBody_plain s (fun x hx => h x (by simp [hx])) rest]
    rfl

/-- A quoted JSON-plain string parses to itself. -/
theorem parseStringLit_plain (s : List Char) (rest : List Char)
    (h : ∀ c ∈ s, jsonPlainChar c) :
    parseStringLit (quoteC :: (s ++ quoteC :: rest)) = some (String.mk s, rest) := by
  simp [parseStringLit, parseStringBody_plain s h rest]

/-- `json.Marshal` emits a marshal-plain character unchanged. -/
theorem goEscapeChar_plain (c : Char) (h : marshalPlainChar c) : goEscapeChar c = [c] := by
  obtain ⟨⟨h1, h2, h3⟩, h4, h5, h6, h7, h8⟩ := h
  have hlt : ¬ (c.toNat < 32) := by omega
  have h10 : c ≠ Char.ofNat 10 := fun e => by rw [e] at h3; exact absurd h3 (by decide)
  have h13 : c ≠ Char.ofNat 13 := fun e => by rw [e] at h3; exact absurd h3 (by decide)
  have h9 : c ≠ Char.ofNat 9 := fun e => by rw [e] at h3; exact absurd h3 (by decide)
  simp [goEscapeChar, h1, h2, h4, h5, h6, h7, h8, h10, h13, h9, hlt]

/-- `json.Marshal` of a marshal-plain string is the raw quoted string. -/
theorem goEncodeString_plain (s : String) (h : ∀ c ∈ s.data, marshalPlainChar c) :
    goEncodeString s = quoteC :: s.data ++ [quoteC] := by
  unfold goEncodeString
  congr 1
  have : ∀ l : List Char, (∀ c ∈ l, marshalPlainChar c) → (l.map goEscapeChar).flatten = l := by
    intro l
    induction l with
    | nil => intro _; rfl
    | cons c rest ih =>
      intro hl
      simp only [List.map_cons, List.flatten_cons, goEscapeChar_plain c (hl c (by simp)),
        ih (fun x hx => hl x (by simp [hx]))]
      rfl
  rw [this s.data h]

/-- Elements loop over a marshal-plain, non-empty address list. -/
theorem parseElemsLoop_marshal :
    ∀ (addrs : List String) (rest : List Char) (fuel : Nat), addrs ≠ [] →
      addrs.length ≤ fuel → (∀ a ∈ addrs, ∀ c ∈ a.data, marshalPlainChar c) →
      parseElemsLoop fuel (joinSep [','] (addrs.map goEncodeString) ++ ']' :: rest) =
        some (addrs, rest)
  | [], _, _, hne, _, _ => absurd rfl hne
  | [a], rest, fuel, _, hf, h => by
    have hf1 : 1 ≤ fuel := by simp only [List.length_cons, List.length_nil] at hf; omega
    obtain ⟨f, rfl⟩ : ∃ f, fuel = f + 1 := ⟨fuel - 1, by omega⟩
    have hja : ∀ c ∈ a.data, jsonPlainChar c := fun c hc => (h a (by simp) c hc).1
    have hsq : ∀ l : List Char, skipWs (quoteC :: l) = quoteC :: l :=
      fun l => skipWs_cons_of _ _ (by decide)
    have hsrb : ∀ l : List Char, skipWs (']' :: l) = ']' :: l :=
      fun l => skipWs_cons_of _ _ (by decide)
    have hrc : ¬ ((']' : Char) = ',') := by decide
    simp only [List.map_cons, List.map_nil, joinSep, goEncodeString_plain a (h a (by simp)),
      List.cons_append, List.append_assoc, List.singleton_append, List.nil_append,
      parseElemsLoop, hsq, hsrb, parseStringLit_plain a.data (']' :: rest) hja, stringMk_data]
    simp [hrc]
  | a :: a2 :: more, rest, fuel, _, hf, h => by
    have hf1 : 1 ≤ fuel := by simp only [List.length_cons] at hf; omega
    obtain ⟨f, rfl⟩ : ∃ f, fuel = f + 1 := ⟨fuel - 1, by omega⟩
    have hja : ∀ c ∈ a.data, jsonPlainChar c := fun c hc => (h a (by simp) c hc).1
    have hsq : ∀ l : List Char, skipWs (quoteC :: l) = quoteC :: l :=
      fun l => skipWs_cons_of _ _ (by decide)
    have hscm : ∀ l : List Char, skipWs (',' :: l) = ',' :: l :=
      fun l => skipWs_cons_of _ _ (by decide)
    have ih := parseElemsLoop_marshal (a2 :: more) rest f (by simp)
      (by simp only [List.length_cons] at hf ⊢; omega)
      (fun x hx => h x (List.mem_cons_of_mem a hx))
    simp only [List.map_cons] at ih
    simp only [List.map_cons, joinSep, goEncodeString_plain a (h a (by simp)),
      List.cons_append, List.append_assoc, List.singleton_append, List.nil_append,
      parseElemsLoop, hsq, hscm,
      parseStringLit_plain a.data
        (',' :: (joinSep [','] (goEncodeString a2 :: List.map goEncodeString more) ++ ']' :: rest))
        hja,
      stringMk_data]
    simp [ih]

/-- A separated join beginning with an element. -/
theorem joinSep_cons_head (sep : List Char) (x : List Char) (xs : List (List Char)) :
    ∃ t, joinSep sep (x :: xs) = x ++ t := by
  cases xs with
  | nil => exact ⟨[], by simp [joinSep]⟩
  | cons y ys => exact ⟨sep ++ joinSep sep (y :: ys), by simp [joinSep]⟩

/-- A marshalled, marshal-plain address array parses back to the list. -/
theorem parseArray_marshal (addrs : List String) (rest : List Char) (fuel : Nat)
    (hf : addrs.length ≤ fuel) (h : ∀ a ∈ addrs, ∀ c ∈ a.data, marshalPlainChar c) :
    parseArray fuel (joinSep [','] (addrs.map goEncodeString) ++ ']' :: rest) =
      some (addrs, rest) := by
  cases addrs with
  | nil =>
    have hsrb : ∀ l : List Char, skipWs (']' :: l) = ']' :: l :=
      fun l => skipWs_cons_of _ _ (by decide)
    simp [parseArray, joinSep, hsrb]
  | cons a more =>
    have hsq : ∀ l : List Char, skipWs (quoteC :: l) = quoteC :: l :=
      fun l => skipWs_cons_of _ _ (by decide)
    have hqrb : ¬ (quoteC = ']') := by decide
    have hne := parseElemsLoop_marshal (a :: more) rest fuel (by simp) hf h
    obtain ⟨t2, hL⟩ :
        ∃ t2, joinSep [','] ((a :: more).map goEncodeString) ++ ']' :: rest = quoteC :: t2 := by
      obtain ⟨t, ht⟩ := joinSep_cons_head [','] (goEncodeString a) (List.map goEncodeString more)
      refine ⟨((a.data.map goEscapeChar).flatten ++ [quoteC]) ++ t ++ ']' :: rest, ?_⟩
      rw [List.map_cons, ht]
      simp [goEncodeString, List.append_assoc]
    rw [hL]
    simp only [parseArray, hsq, hqrb, if_false]
    rw [← hL]
    exact hne

/-- One object member holding a JSON-plain string value. -/
theorem parseMembersLoop_cons_str (fuel : Nat) (k v : String) (tail : List Char)
    (hk : ∀ c ∈ k.data, jsonPlainChar c) (hv : ∀ c ∈ v.data, jsonPlainChar c) :
    parseMembersLoop (fuel + 1)
      (quoteC :: (k.data ++ quoteC :: ':' :: quoteC :: (v.data ++ quoteC :: ',' :: tail))) =
      (parseMembersLoop fuel tail).map (fun pr => ((k, JField.jstr v) :: pr.1, pr.2)) := by
  have hsq : ∀ l : List Char, skipWs (quoteC :: l) = quoteC :: l :=
    fun l => skipWs_cons_of _ _ (by decide)
  have hsc : ∀ l : List Char, skipWs (':' :: l) = ':' :: l :=
    fun l => skipWs_cons_of _ _ (by decide)
  have hsm : ∀ l : List Char, skipWs (',' :: l) = ',' :: l :=
    fun l => skipWs_cons_of _ _ (by decide)
  simp only [parseMembersLoop, hsq,
    parseStringLit_plain k.data (':' :: quoteC :: (v.data ++ quoteC :: ',' :: tail)) hk,
    stringMk_data, hsc]
  simp only [parseFieldValue, hsq,
    parseStringLit_plain v.data (',' :: tail) hv, stringMk_data]
  simp [hsm]

/-- A final object member holding the marshalled address array, closed
by the curly bracket. -/
theorem parseMembersLoop_last_arr (fuel : Nat) (k : String) (addrs : List String)
    (rest : List Char) (hk : ∀ c ∈ k.data, jsonPlainChar c) (hfa : addrs.length ≤ fuel)
    (ha : ∀ a ∈ addrs, ∀ c ∈ a.data, marshalPlainChar c) :
    parseMembersLoop (fuel + 1)
      (quoteC :: (k.data ++ quoteC :: ':' :: '[' ::
        (joinSep [','] (addrs.map goEncodeString) ++ ']' :: closeBraceC :: rest))) =
      some ([(k, JField.jarr addrs)], rest) := by
  have hsq : ∀ l : List Char, skipWs (quoteC :: l) = quoteC :: l :=
    fun l => skipWs_cons_of _ _ (by decide)
  have hsc : ∀ l : List Char, skipWs (':' :: l) = ':' :: l :=
    fun l => skipWs_cons_of _ _ (by decide)
  have hsb : ∀ l : List Char, skipWs ('[' :: l) = '[' :: l :=
    fun l => skipWs_cons_of _ _ (by decide)
  have hscb : ∀ l : List Char, skipWs (closeBraceC :: l) = closeBraceC :: l :=
    fun l => skipWs_cons_of _ _ (by decide)
  have hbq : ¬ (('[' : Char) = quoteC) := by decide
  have hcbm : ¬ (closeBraceC = ',') := by decide
  simp only [parseMembersLoop, hsq,
    parseStringLit_plain k.data
      (':' :: '[' :: (joinSep [','] (addrs.map goEncodeString) ++ ']' :: closeBraceC :: rest)) hk,
    stringMk_data, hsc]
  simp only [parseFieldValue, hsb, hbq, if_false,
    parseArray_marshal addrs (closeBraceC :: rest) fuel hfa ha]
  simp [hscb, hcbm]

/-- The register body in cons-normal form. -/
theorem buildRegisterBody_eq (u p : String) (addrs : List String) :
    buildRegisterBody u p addrs =
      openBraceC :: quoteC :: ("username".data ++ quoteC :: ':' :: quoteC ::
        (u.data ++ quoteC :: ',' :: (quoteC :: ("peer_id".data ++ quoteC :: ':' :: quoteC ::
        (p.data ++ quoteC :: ',' :: (quoteC :: ("addrs".data ++ quoteC :: ':' :: '[' ::
        (joinSep [','] (addrs.map goEncodeString) ++ ']' :: closeBraceC :: [])))))))) := by
  simp only [buildRegisterBody, rawQuoted, goMarshalStringList, List.cons_append,
    List.nil_append, List.append_assoc, List.singleton_append]

/-- A separated join of encoded strings is at least as long as the
list. -/
theorem joinSep_length_ge :
    ∀ addrs : List String, addrs.length ≤ (joinSep [','] (addrs.map goEncodeString)).length
  | [] => by simp [joinSep]
  | [a] => by
    simp only [List.map_cons, List.map_nil, joinSep, goEncodeString, List.length_cons,
      List.length_append, List.length_nil]
    omega
  | a :: a2 :: more => by
    have ih := joinSep_length_ge (a2 :: more)
    simp only [List.map_cons, List.length_cons] at ih
    have hlena : (goEncodeString a).length = ((a.data.map goEscapeChar).flatten).length + 2 := by
      simp [goEncodeString]
    simp only [List.map_cons, joinSep, List.length_cons, List.length_append, List.length_nil]
    omega

/-- The register body is long enough to fuel its own parse. -/
theorem buildRegisterBody_length (u p : String) (addrs : List String) :
    addrs.length + 2 ≤ (buildRegisterBody u p addrs).length := by
  have hj := joinSep_length_ge addrs
  simp only [buildRegisterBody, rawQuoted, goMarshalStringList, List.length_append,
    List.length_cons, List.length_nil]
  omega

/-- Claim C6 (amended): provided the username and peer identity contain
no double quote, backslash or control character, and the addresses
contain none of the characters `json.Marshal` escapes, the raw
`Sprintf`-interpolated register body is a well-formed JSON object whose
`username` and `peer_id` fields decode back to exactly the original
strings. -/
theorem C6_register_body_roundtrip (u p : String) (addrs : List String)
    (hu : ∀ c ∈ u.data, jsonPlainChar c) (hp : ∀ c ∈ p.data, jsonPlainChar c)
    (ha : ∀ a ∈ addrs, ∀ c ∈ a.data, marshalPlainChar c) :
    decodeRegisterBody (buildRegisterBody u p addrs) = some (u, p) := by
  have hku : ∀ c ∈ "username".data, jsonPlainChar c := by decide
  have hkp : ∀ c ∈ "peer_id".data, jsonPlainChar c := by decide
  have hka : ∀ c ∈ "addrs".data, jsonPlainChar c := by decide
  have hlen := buildRegisterBody_length u p addrs
  obtain ⟨f, hf3, hfa⟩ :
      ∃ f, (buildRegisterBody u p addrs).length + 1 = f + 3 ∧ addrs.length ≤ f :=
    ⟨(buildRegisterBody u p addrs).length - 2, by omega, by omega⟩
  unfold decodeRegisterBody
  rw [hf3, buildRegisterBody_eq]
  have hsob : ∀ l : List Char, skipWs (openBraceC :: l) = openBraceC :: l :=
    fun l => skipWs_cons_of _ _ (by decide)
  have hsq : ∀ l : List Char, skipWs (quoteC :: l) = quoteC :: l :=
    fun l => skipWs_cons_of _ _ (by decide)
  have hqcb : ¬ (quoteC = closeBraceC) := by decide
  simp only [parseTopObject, hsob, hsq, hqcb, if_false]
  rw [show f + 3 = (f + 2) + 1 from rfl,
    parseMembersLoop_cons_str (f + 2) "username" u _ hku hu,
    show f + 2 = (f + 1) + 1 from rfl,
    parseMembersLoop_cons_str (f + 1) "peer_id" p _ hkp hp,
    parseMembersLoop_last_arr f "addrs" addrs [] hka hfa ha]
  have hb1 : (("addrs" : String) == "username") = false := by decide
  have hb2 : (("peer_id" : String) == "username") = false := by decide
  have hb3 : (("username" : String) == "username") = true := by decide
  have hb4 : (("addrs" : String) == "peer_id") = false := by decide
  have hb5 : (("peer_id" : String) == "peer_id") = true := by decide
  simp [lastStrField, hb1, hb2, hb3, hb4, hb5]

/-- Counterexample to claim C6 as stated: a username containing a double
quote is spliced into the body verbatim, making the body malformed —
the decoder rejects it instead of returning the original strings. -/
theorem C6_counterexample :
    decodeRegisterBody (buildRegisterBody (String.mk ['a', quoteC, 'b']) "p" []) = none ∧
    decodeRegisterBody (buildRegisterBody (String.mk ['a', quoteC, 'b']) "p" []) ≠
      some (String.mk ['a', quoteC, 'b'], "p") := by
  decide

/-- Witness for C6 (amended) at a concrete plain registration. -/
theorem C6_register_body_roundtrip_witness :
    decodeRegisterBody (buildRegisterBody "alice" "QmPeer" ["/ip4/1.2.3.4/tcp/1"]) =
      some ("alice", "QmPeer") :=
  C6_register_body_roundtrip "alice" "QmPeer" ["/ip4/1.2.3.4/tcp/1"]
    (by decide) (by decide) (by decide)

/-- Allocation leaves existing buffers unchanged. -/
theorem Mem.bufs_alloc_lt (mem : Mem) (n b : Nat) (h : b < mem.size) :
    (mem.alloc n).1.bufs b = mem.bufs b := by
  have hne : b ≠ mem.size := by omega
  simp [Mem.alloc, hne]

/-- `append` does not touch a buffer other than the slice's own (fresh
buffers are new identifiers). -/
theorem sliceAppend_bufs_other (mem : Mem) (s : GoSlice) (x : ChatMessage) (b : Nat)
    (hb : b ≠ s.buf) (hlt : b < mem.size) :
    (sliceAppend mem s x).1.bufs b = mem.bufs b := by
  unfold sliceAppend
  by_cases hc : s.len < s.cap
  · simp [hc, Mem.writeAt, Mem.writeBuf, hb]
  · have hbs : b ≠ mem.size := by omega
    simp [hc, Mem.alloc, Mem.writeAt, Mem.writeBuf, hb, hbs]

/-- The `append` result slice lands on the same buffer or on the fresh
one, with the corresponding heap size. -/
theorem sliceAppend_buf_cases (mem : Mem) (s : GoSlice) (x : ChatMessage) :
    ((sliceAppend mem s x).2.buf = s.buf ∧ (sliceAppend mem s x).1.size = mem.size) ∨
    ((sliceAppend mem s x).2.buf = mem.size ∧ (sliceAppend mem s x).1.size = mem.size + 1) := by
  unfold sliceAppend
  by_cases hc : s.len < s.cap
  · left; simp [hc, Mem.writeAt, Mem.writeBuf]
  · right; simp [hc, Mem.alloc, Mem.writeAt, Mem.writeBuf]

/-- The framing facts one `append` preserves with respect to a protected
buffer `pb`: the protected buffer's contents, heap growth, and the
result slice staying off the protected buffer. -/
theorem sliceAppend_facts (mem : Mem) (s : GoSlice) (x : ChatMessage) (pb : Nat)
    (h1 : pb < mem.size) (h2 : s.buf < mem.size) (h3 : s.buf ≠ pb) :
    (sliceAppend mem s x).1.bufs pb = mem.bufs pb ∧
    mem.size ≤ (sliceAppend mem s x).1.size ∧
    (sliceAppend mem s x).2.buf < (sliceAppend mem s x).1.size ∧
    (sliceAppend mem s x).2.buf ≠ pb ∧
    pb < (sliceAppend mem s x).1.size := by
  have hbufs := sliceAppend_bufs_other mem s x pb (fun e => h3 e.symm) h1
  rcases sliceAppend_buf_cases mem s x with ⟨hb, hs⟩ | ⟨hb, hs⟩
  · exact ⟨hbufs, by omega, by omega, by rw [hb]; exact h3, by omega⟩
  · exact ⟨hbufs, by omega, by omega, by rw [hb]; omega, by omega⟩

/-- Pushing any sequence of messages never touches a buffer disjoint
from the queue's. -/
theorem pushAll_frame (r : GoSlice) :
    ∀ (ms : List ChatMessage) (mem : Mem) (q : GoSlice),
      q.buf < mem.size → r.buf < mem.size → r.buf ≠ q.buf →
      (InboxS.pushAll (mem, q) ms).1.bufs r.buf = mem.bufs r.buf
  | [], _, _, _, _, _ => rfl
  | m :: ms, mem, q, h1, h2, h3 => by
    have hp := sliceAppend_facts mem q m r.buf h2 h1 (fun e => h3 e.symm)
    have hrec := pushAll_frame r ms (sliceAppend mem q m).1 (sliceAppend mem q m).2
      hp.2.2.1 hp.2.2.2.2 (fun e => hp.2.2.2.1 e.symm)
    show (InboxS.pushAll (InboxS.push (mem, q) m) ms).1.bufs r.buf = mem.bufs r.buf
    exact hrec.trans hp.1

/-- The cursor loop of the slice-level drain: the queue's buffer is
never written, the heap only grows, and the output slice stays on a
buffer disjoint from the protected one. -/
theorem drainLoopS_facts (after : String) :
    ∀ (ms : List ChatMessage) (found : Bool) (mem : Mem) (out : GoSlice) (pb : Nat),
      pb < mem.size → out.buf < mem.size → out.buf ≠ pb →
      (InboxS.drainLoop after ms found mem out).1.bufs pb = mem.bufs pb ∧
      mem.size ≤ (InboxS.drainLoop after ms found mem out).1.size ∧
      (InboxS.drainLoop after ms found mem out).2.buf <
        (InboxS.drainLoop after ms found mem out).1.size ∧
      (InboxS.drainLoop after ms found mem out).2.buf ≠ pb ∧
      pb < (InboxS.drainLoop after ms found mem out).1.size
  | [], _, mem, out, pb, h1, h2, h3 => ⟨rfl, le_refl _, h2, h3, h1⟩
  | m :: ms, found, mem, out, pb, h1, h2, h3 => by
    by_cases hid : m.id = after
    · simp only [InboxS.drainLoop, hid, if_true]
      exact drainLoopS_facts after ms true mem out pb h1 h2 h3
    · cases found with
      | true =>
        have hstep :
            InboxS.drainLoop after (m :: ms) true mem out =
              InboxS.drainLoop after ms true (sliceAppend mem out m).1
                (sliceAppend mem out m).2 := by
          simp [InboxS.drainLoop, hid]
        have ha := sliceAppend_facts mem out m pb h1 h2 h3
        have hrec := drainLoopS_facts after ms true (sliceAppend mem out m).1
          (sliceAppend mem out m).2 pb ha.2.2.2.2 ha.2.2.1 ha.2.2.2.1
        rw [hstep]
        exact ⟨hrec.1.trans ha.1, ha.2.1.trans hrec.2.1, hrec.2.2.1, hrec.2.2.2.1,
          hrec.2.2.2.2⟩
      | false =>
        have hstep :
            InboxS.drainLoop after (m :: ms) false mem out =
              InboxS.drainLoop after ms false mem out := by
          simp [InboxS.drainLoop, hid]
        rw [hstep]
        exact drainLoopS_facts after ms false mem out pb h1 h2 h3

/-- Claim C9: the slice-level `Drain` never changes the inbox queue's
contents, and the slice it returns is a genuine copy — any sequence of
later pushes to the inbox leaves the elements viewed by the returned
slice untouched. -/
theorem C9_drain_snapshot_frame (mem : Mem) (q : GoSlice) (after : String)
    (hq : q.buf < mem.size) :
    sliceToList (InboxS.drain mem q after).1 q = sliceToList mem q ∧
    ∀ ms : List ChatMessage,
      sliceToList (InboxS.pushAll ((InboxS.drain mem q after).1, q) ms).1
          (InboxS.drain mem q after).2 =
        sliceToList (InboxS.drain mem q after).1 (InboxS.drain mem q after).2 := by
  have hqs : q.buf ≠ mem.size := by omega
  obtain ⟨hbufs, hsize, hrlt, hrne⟩ :
      (InboxS.drain mem q after).1.bufs q.buf = mem.bufs q.buf ∧
      mem.size ≤ (InboxS.drain mem q after).1.size ∧
      (InboxS.drain mem q after).2.buf < (InboxS.drain mem q after).1.size ∧
      (InboxS.drain mem q after).2.buf ≠ q.buf := by
    unfold InboxS.drain
    by_cases ha : after = ""
    · refine ⟨?_, ?_, ?_, ?_⟩ <;>
        simp [ha, sliceMake, Mem.alloc, Mem.writeBuf, hqs]
      omega
    · have h0 : q.buf < (mem.alloc 0).1.size := by simp [Mem.alloc]; omega
      have h0b : (mem.size : Nat) < (mem.alloc 0).1.size := by simp [Mem.alloc]
      have hfacts := drainLoopS_facts after (sliceToList mem q) false (mem.alloc 0).1
        ⟨mem.size, 0, 0, 0⟩ q.buf h0 h0b (fun e => hqs e.symm)
      have halloc : (mem.alloc 0).1.bufs q.buf = mem.bufs q.buf :=
        Mem.bufs_alloc_lt mem 0 q.buf hq
      have hallocsize : mem.size ≤ (mem.alloc 0).1.size := by simp [Mem.alloc]
      simp only [ha, if_false]
      exact ⟨hfacts.1.trans halloc, hallocsize.trans hfacts.2.1, hfacts.2.2.1,
        hfacts.2.2.2.1⟩
  constructor
  · unfold sliceToList
    rw [hbufs]
  · intro ms
    have hframe := pushAll_frame (InboxS.drain mem q after).2 ms
      (InboxS.drain mem q after).1 q (by omega) hrlt hrne
    unfold sliceToList
    rw [hframe]

/-- Witness for C9: a drain on a concrete one-buffer heap leaves the
queue's contents unchanged and its snapshot stable under a later push. -/
theorem C9_drain_snapshot_frame_witness :
    sliceToList (InboxS.drain ⟨1, fun _ => []⟩ ⟨0, 0, 0, 0⟩ "").1 ⟨0, 0, 0, 0⟩ =
      sliceToList (⟨1, fun _ => []⟩ : Mem) ⟨0, 0, 0, 0⟩ ∧
    sliceToList (InboxS.pushAll ((InboxS.drain ⟨1, fun _ => []⟩ ⟨0, 0, 0, 0⟩ "").1,
        ⟨0, 0, 0, 0⟩) [dupB]).1 (InboxS.drain ⟨1, fun _ => []⟩ ⟨0, 0, 0, 0⟩ "").2 =
      sliceToList (InboxS.drain ⟨1, fun _ => []⟩ ⟨0, 0, 0, 0⟩ "").1
        (InboxS.drain ⟨1, fun _ => []⟩ ⟨0, 0, 0, 0⟩ "").2 := by
  have h := C9_drain_snapshot_frame ⟨1, fun _ => []⟩ ⟨0, 0, 0, 0⟩ "" (by decide)
  exact ⟨h.1, h.2 [dupB]⟩
